import Mathlib

/-!
Shallow embedding of `src/main.py` (urban-dictionary-word-list crawler).

The embedded parts are the per-letter crawl loop `extract_letter_entries`
(retry/backoff state machine), the merge-and-persist step
`download_letter_entries`, and the per-letter coordinator `download_entries`.
External collaborators (HTTP transport, HTML extraction) are modelled as
oracles: a fetch environment is a list of `FetchResult`, consumed one element
per `urllib.request.urlopen` call, and a page body is abstracted to the
`Page` data the extractor (`extract_page_entries` / `get_next`) returns
for it.
-/

namespace UD

/-- `MAX_ATTEMPTS = 10` (src/main.py line 16). -/
def MAX_ATTEMPTS : Nat := 10

/-- `DELAY = 10` (src/main.py line 17). -/
def DELAY : Nat := 10

/-- `API = "https://www.urbandictionary.com/browse.php?character={0}"`,
`API.format(letter)` (src/main.py lines 14 and 50). -/
def API_format (letter : String) : String :=
  "https://www.urbandictionary.com/browse.php?character=" ++ letter

/-- Abstraction of one fetched page body: what the external extractor yields
from it. `entries` is `list(extract_page_entries(content))` (the anchor texts
of the word list, in page order) and `next` is `get_next(content)`
(the absolute next-page URL from the `rel=next` anchor, or `None`). -/
structure Page where
  entries : List String
  next : Option String
deriving Repr, DecidableEq

/-- Outcome of one `urllib.request.urlopen(url)` call: either a
transport-level exception (`err`), or a response carrying a status code and
a body (`ok`).  The installed `NoRedirection` opener returns non-2xx
responses instead of raising `HTTPError`, so every received response reaches
the `code == 200` test; only transport errors raise. -/
inductive FetchResult where
  | err : FetchResult
  | ok (code : Nat) (page : Page) : FetchResult
deriving Repr, DecidableEq

/-- The observable state of one letter's crawl loop in
`extract_letter_entries` (src/main.py lines 49-68): the current `url`
(`none` once `get_next` returned `None`, i.e. Python's falsy empty value
ending `while url`), the `attempt` counter, the page entry lists yielded so
far, the URLs passed to `urlopen` so far (in order), and the durations of
the `time.sleep(DELAY * attempt)` calls performed so far (in order). -/
structure CrawlState where
  url : Option String
  attempt : Nat
  pages : List (List String)
  fetched : List String
  sleeps : List Nat
deriving Repr, DecidableEq

/-- How one letter's crawl ends: `done` when `url` becomes empty (normal
`while` exit), `fatal` when `attempt > MAX_ATTEMPTS` triggers `break`,
`raised` when `urlopen` raised a transport error (the code has no
`try/except` around it, so the exception propagates out of the generator),
and `pending` when the fetch environment is exhausted while the loop would
still continue (a model artifact bounding the loop). -/
inductive CrawlOutcome where
  | done | fatal | raised | pending
deriving Repr, DecidableEq

/-- The `while url:` loop of `extract_letter_entries` (src/main.py lines
52-68), driven by the fetch environment `env`: the k-th `urlopen` call
returns the k-th element of `env`.
* status 200: the page's entries are yielded, `url = get_next(content)`,
  `attempt = 0`;
* otherwise: `attempt += 1`; if `attempt > MAX_ATTEMPTS` the loop `break`s
  (fatal), else `time.sleep(DELAY * attempt)` and the same `url` is retried;
* a transport error from `urlopen` propagates (no retry, no sleep). -/
def crawlLoop (env : List FetchResult) (s : CrawlState) :
    CrawlState × CrawlOutcome :=
  match s.url, env with
  | none, _ => (s, .done)
  | some _, [] => (s, .pending)
  | some u, r :: rest =>
    match r with
    | .err => ({ s with fetched := s.fetched ++ [u] }, .raised)
    | .ok code page =>
      if code = 200 then
        crawlLoop rest
          { url := page.next
            attempt := 0
            pages := s.pages ++ [page.entries]
            fetched := s.fetched ++ [u]
            sleeps := s.sleeps }
      else
        let a := s.attempt + 1
        if MAX_ATTEMPTS < a then
          ({ s with attempt := a, fetched := s.fetched ++ [u] }, .fatal)
        else
          crawlLoop rest
            { s with
              attempt := a
              fetched := s.fetched ++ [u]
              sleeps := s.sleeps ++ [DELAY * a] }

/-- `extract_letter_entries(letter, ...)` (src/main.py lines 49-68):
run the crawl loop from `url = API.format(letter)`, `attempt = 0`. -/
def extract_letter_entries (letter : String) (env : List FetchResult) :
    CrawlState × CrawlOutcome :=
  crawlLoop env
    { url := some (API_format letter), attempt := 0
      pages := [], fetched := [], sleeps := [] }

/-- The case-folded sort key of `key=str.casefold` (src/main.py line 93):
the string's characters, lowercased (`str.casefold` restricted to the ASCII
range, which `Char.toLower` matches). -/
def casefoldKey (s : String) : List Char := s.data.map Char.toLower

/-- The sort key comparison of `sorted(..., key=str.casefold)`
(src/main.py line 93): lexicographic comparison of the case-folded keys,
exactly Python's code-point-wise string comparison of the keys. -/
def casefoldLe (a b : String) : Prop := casefoldKey a ≤ casefoldKey b

instance : DecidableRel casefoldLe := fun a b =>
  inferInstanceAs (Decidable (casefoldKey a ≤ casefoldKey b))

instance : IsTotal String casefoldLe :=
  ⟨fun a b => le_total (casefoldKey a) (casefoldKey b)⟩

instance : IsTrans String casefoldLe :=
  ⟨fun _ _ _ hab hbc => le_trans hab hbc⟩

/-- Python's `sorted(..., key=str.casefold)`, modelled as a stable sort by
the case-folded key. -/
def sortCF (l : List String) : List String := l.insertionSort casefoldLe

/-- Helper for `pySet`: keep the elements not already seen, in order,
recording seen elements in `seen`. -/
def pySetAux (seen : List String) : List String → List String
  | [] => []
  | a :: l => if a ∈ seen then pySetAux seen l else a :: pySetAux (a :: seen) l

/-- The value set of Python's `set(...)` over a list, canonicalised as the
list of first occurrences in order (CPython's set iteration order is
unspecified; only the underlying value set is meaningful, and `sorted` then
fixes the output order up to case-fold ties). -/
def pySet (l : List String) : List String := pySetAux [] l

/-- The merge step of `download_letter_entries` (src/main.py lines 87-95).
`old?` is the prior file's stripped line list, or `none` when opening the
file raised `FileNotFoundError`; `fresh` is the chained crawl entries in
crawl order; `remove_dead` is the Replace policy flag.
* `remove_dead` (Replace): `all_data = entries` — the fresh entries as-is;
* otherwise with a prior file: `sorted(set(old_data).union(set(entries)),
  key=str.casefold)`;
* otherwise without a prior file: `all_data = entries`. -/
def mergeEntries (old? : Option (List String)) (fresh : List String)
    (remove_dead : Bool) : List String :=
  if remove_dead then fresh
  else
    match old? with
    | some old => sortCF (pySet (old ++ fresh))
    | none => fresh

/-- The write of src/main.py line 98: `f.write("\n".join(all_data) + "\n")`. -/
def writeContent (l : List String) : String :=
  String.intercalate "\n" l ++ "\n"

/-- `download_letter_entries(letter, file, remove_dead, ...)`
(src/main.py lines 80-98), as the file content written for the letter.
`old?` abstracts the prior file (`none` = `FileNotFoundError`), `env` the
fetch environment.  `list(extract_letter_entries(...))` drains the
generator, so a `fatal` break still returns the pages accumulated so far
and the merge-and-write proceeds with them; a transport error propagates
through `list(...)` out of `download_letter_entries`, so no file is written
(`Except.error`). -/
def download_letter_entries (letter : String) (env : List FetchResult)
    (old? : Option (List String)) (remove_dead : Bool) :
    Except Unit String :=
  let r := extract_letter_entries letter env
  match r.2 with
  | .raised => .error ()
  | _ => .ok (writeContent (mergeEntries old? r.1.pages.flatten remove_dead))

/-- `download_entries(letters, ...)` (src/main.py lines 105-118): one
independent `download_letter_entries` task per letter.  Each task reads and
writes only its own letter's file and consumes its own fetch environment
(`envs letter`, `olds letter`); the thread pool only schedules them, so the
per-letter results are the per-letter function applied pointwise. -/
def download_entries (letters : List String)
    (envs : String → List FetchResult) (olds : String → Option (List String))
    (remove_dead : Bool) : List (Except Unit String) :=
  letters.map (fun l => download_letter_entries l (envs l) (olds l) remove_dead)

/-- Drop leading whitespace characters. -/
def trimLead (l : List Char) : List Char := l.dropWhile Char.isWhitespace

/-- Python's `line.strip()` (src/main.py line 92) on the characters of a
line: remove leading and trailing whitespace (`Char.isWhitespace` matching
the whitespace Python strips in this data: spaces, tabs, newlines). -/
def stripChars (l : List Char) : List Char :=
  (trimLead (trimLead l).reverse).reverse

/-- Python's `f.readlines()` (src/main.py line 92) with the line
terminators already removed (the subsequent `strip` removes them anyway):
split the content at newline characters; a nonempty tail after the last
newline forms a final line, and a trailing newline adds no empty line.
`cur` holds the current line's characters in reverse. -/
def splitLinesAux : List Char → List Char → List (List Char)
  | cur, [] => if cur.isEmpty then [] else [cur.reverse]
  | cur, c :: rest =>
    if c = '\n' then cur.reverse :: splitLinesAux [] rest
    else splitLinesAux (c :: cur) rest

/-- `[line.strip() for line in f.readlines()]` (src/main.py line 92): the
prior output file's content as the list of its stripped lines. -/
def readPrior (content : String) : List String :=
  (splitLinesAux [] content.data).map (fun cs => String.mk (stripChars cs))

/-- The merge-and-write of `download_letter_entries` (src/main.py lines
87-98) at the file level: the prior file's raw content (or `none` for
`FileNotFoundError`) is read back through `readlines`/`strip`, merged with
the fresh entries under the policy, and rendered by the line-98 write. -/
def mergeFile (prior? : Option String) (fresh : List String)
    (remove_dead : Bool) : String :=
  writeContent (mergeEntries (prior?.map readPrior) fresh remove_dead)

/-! ### Step lemmas for the crawl loop -/

/-- A transport error from `urlopen` ends the crawl at once: the generator
has no `try/except`, so the exception propagates (no sleep, no retry). -/
theorem crawlLoop_err (s : CrawlState) (u : String) (rest : List FetchResult)
    (h : s.url = some u) :
    crawlLoop (.err :: rest) s = ({ s with fetched := s.fetched ++ [u] }, .raised) := by
  obtain ⟨url, a, pg, f, sl⟩ := s
  cases h
  rfl

/-- A 200 response: entries are appended, pagination advances to the page's
next-link, and the attempt counter resets to 0. -/
theorem crawlLoop_200 (s : CrawlState) (u : String) (page : Page)
    (rest : List FetchResult) (h : s.url = some u) :
    crawlLoop (.ok 200 page :: rest) s =
      crawlLoop rest
        { url := page.next, attempt := 0
          pages := s.pages ++ [page.entries]
          fetched := s.fetched ++ [u]
          sleeps := s.sleeps } := by
  obtain ⟨url, a, pg, f, sl⟩ := s
  cases h
  rfl

/-- A non-200 response below the retry ceiling: increment `attempt`, sleep
`DELAY * attempt`, and retry the same `url` (the state's `url` field is
unchanged). -/
theorem crawlLoop_fail_cont (s : CrawlState) (u : String) (c : Nat) (page : Page)
    (rest : List FetchResult) (h : s.url = some u) (hc : c ≠ 200)
    (ha : s.attempt < MAX_ATTEMPTS) :
    crawlLoop (.ok c page :: rest) s =
      crawlLoop rest
        { s with
          attempt := s.attempt + 1
          fetched := s.fetched ++ [u]
          sleeps := s.sleeps ++ [DELAY * (s.attempt + 1)] } := by
  obtain ⟨url, a, pg, f, sl⟩ := s
  cases h
  simp only [crawlLoop, if_neg hc]
  rw [if_neg (by dsimp only at ha; omega)]

/-- A non-200 response at the retry ceiling: `attempt > MAX_ATTEMPTS`
triggers `break` (no sleep). -/
theorem crawlLoop_fail_fatal (s : CrawlState) (u : String) (c : Nat) (page : Page)
    (rest : List FetchResult) (h : s.url = some u) (hc : c ≠ 200)
    (ha : MAX_ATTEMPTS ≤ s.attempt) :
    crawlLoop (.ok c page :: rest) s =
      ({ s with attempt := s.attempt + 1, fetched := s.fetched ++ [u] }, .fatal) := by
  obtain ⟨url, a, pg, f, sl⟩ := s
  cases h
  simp only [crawlLoop, if_neg hc]
  rw [if_pos (by dsimp only at ha; omega)]

/-- `k` consecutive non-200 responses with the retry budget not yet
exhausted: the same `url` is fetched `k` more times, with back-to-back
sleeps of `DELAY * (attempt+1), ..., DELAY * (attempt+k)`. -/
theorem crawlLoop_failStreak (c : Nat) (page : Page) (hc : c ≠ 200) :
    ∀ (k : Nat) (s : CrawlState) (u : String) (rest : List FetchResult),
      s.url = some u → s.attempt + k ≤ MAX_ATTEMPTS →
      crawlLoop (List.replicate k (.ok c page) ++ rest) s =
        crawlLoop rest
          { s with
            attempt := s.attempt + k
            fetched := s.fetched ++ List.replicate k u
            sleeps := s.sleeps ++
              (List.range' (s.attempt + 1) k).map (fun i => DELAY * i) } := by
  intro k
  induction k with
  | zero => intro s u rest h hk; simp
  | succ k ih =>
    intro s u rest h hk
    rw [List.replicate_succ, List.cons_append,
      crawlLoop_fail_cont s u c page _ h hc (by omega)]
    rw [ih _ u rest (by simpa using h) (by simp; omega)]
    simp only [List.range'_succ]
    simp [List.replicate_succ, List.append_assoc, Nat.add_assoc, Nat.add_comm 1 k]

/-- `k` consecutive non-200 responses that exhaust the retry budget
(`attempt + k = MAX_ATTEMPTS + 1`): the crawl is abandoned as fatal, having
fetched the same `url` exactly `k` more times, with no sleep after the last
attempt. -/
theorem crawlLoop_failStreak_fatal (c : Nat) (page : Page) (hc : c ≠ 200)
    (k : Nat) (s : CrawlState) (u : String) (rest : List FetchResult)
    (h : s.url = some u) (hk : s.attempt + k = MAX_ATTEMPTS + 1) (hk1 : 1 ≤ k) :
    crawlLoop (List.replicate k (.ok c page) ++ rest) s =
      ({ s with
          attempt := MAX_ATTEMPTS + 1
          fetched := s.fetched ++ List.replicate k u
          sleeps := s.sleeps ++
            (List.range' (s.attempt + 1) (k - 1)).map (fun i => DELAY * i) },
        .fatal) := by
  obtain ⟨k, rfl⟩ : ∃ k', k = k' + 1 := ⟨k - 1, by omega⟩
  rw [List.replicate_succ', List.append_assoc,
    crawlLoop_failStreak c page hc k s u _ h (by omega)]
  rw [List.singleton_append,
    crawlLoop_fail_fatal _ u c page rest (by simpa using h) hc (by dsimp only; omega)]
  dsimp only
  rw [List.append_assoc, ← List.replicate_succ']
  have ha : s.attempt + k + 1 = MAX_ATTEMPTS + 1 := by omega
  rw [ha]
  simp

/-- A chain of 200 responses whose pages link each other up to a last page
with no next-link: the crawl visits each page once, in pagination order
(each later fetch's URL is the preceding page's next-link), accumulates
every page's entries in order, and terminates normally. -/
theorem crawlLoop_successChain :
    ∀ (ps : List Page) (s : CrawlState) (u : String) (hne : ps ≠ []),
      s.url = some u →
      (∀ p ∈ ps.dropLast, (Page.next p).isSome) →
      (ps.getLast hne).next = none →
      crawlLoop (ps.map (fun p => FetchResult.ok 200 p)) s =
        ({ url := none, attempt := 0
           pages := s.pages ++ ps.map Page.entries
           fetched := s.fetched ++ u :: ps.dropLast.filterMap Page.next
           sleeps := s.sleeps }, .done) := by
  intro ps
  induction ps with
  | nil => intro s u hne; exact absurd rfl hne
  | cons p ps ih =>
    intro s u hne h hdrop hlast
    cases ps with
    | nil =>
      rw [List.map_cons, List.map_nil, crawlLoop_200 s u p [] h]
      have hp : p.next = none := by simpa using hlast
      simp [crawlLoop, hp]
    | cons q t =>
      rw [List.map_cons, crawlLoop_200 s u p _ h]
      have hp : (Page.next p).isSome := hdrop p (by simp)
      obtain ⟨v, hv⟩ := Option.isSome_iff_exists.mp hp
      rw [ih _ v (by simp) (by simpa using hv)
        (fun r hr => hdrop r (by simp [List.dropLast_cons₂] at hr ⊢; tauto))
        (by rw [← hlast]; simp [List.getLast_cons])]
      simp [List.dropLast_cons₂, List.filterMap_cons, hv]

/-! ### Lemmas about the modelled `set` / `sorted` combination -/

theorem mem_pySetAux (a : String) :
    ∀ (l seen : List String), a ∈ pySetAux seen l ↔ a ∈ l ∧ a ∉ seen := by
  intro l
  induction l with
  | nil => intro seen; simp [pySetAux]
  | cons b l ih =>
    intro seen
    by_cases hb : b ∈ seen
    · rw [pySetAux, if_pos hb, ih]
      simp only [List.mem_cons]
      constructor
      · tauto
      · rintro ⟨rfl | h1, h2⟩
        · exact absurd hb h2
        · exact ⟨h1, h2⟩
    · rw [pySetAux, if_neg hb]
      simp only [List.mem_cons, ih, List.mem_cons, not_or]
      by_cases hab : a = b <;> subst_eqs <;> tauto

theorem mem_pySet (a : String) (l : List String) : a ∈ pySet l ↔ a ∈ l := by
  rw [pySet, mem_pySetAux]
  simp

theorem nodup_pySetAux : ∀ (l seen : List String), (pySetAux seen l).Nodup := by
  intro l
  induction l with
  | nil => intro seen; simp [pySetAux]
  | cons b l ih =>
    intro seen
    by_cases hb : b ∈ seen
    · rw [pySetAux, if_pos hb]; exact ih seen
    · rw [pySetAux, if_neg hb]
      refine List.nodup_cons.mpr ⟨fun hmem => ?_, ih (b :: seen)⟩
      exact ((mem_pySetAux b l (b :: seen)).mp hmem).2 (by simp)

theorem nodup_pySet (l : List String) : (pySet l).Nodup := nodup_pySetAux l []

/-- If every element of `l` is already seen, `pySetAux` drops all of `l`. -/
theorem pySetAux_eq_nil (l seen : List String) (h : ∀ a ∈ l, a ∈ seen) :
    pySetAux seen l = [] := by
  induction l with
  | nil => rfl
  | cons b l ih =>
    rw [pySetAux, if_pos (h b (by simp))]
    exact ih fun a ha => h a (by simp [ha])

/-- Inserting into a set the elements it already holds leaves it unchanged:
for a duplicate-free `S` and `Y ⊆ S`, the set of `S ++ Y` is `S` itself. -/
theorem pySetAux_append_eq_self :
    ∀ (S Y seen : List String), S.Nodup → (∀ a ∈ S, a ∉ seen) →
      (∀ b ∈ Y, b ∈ S ∨ b ∈ seen) → pySetAux seen (S ++ Y) = S := by
  intro S
  induction S with
  | nil =>
    intro Y seen _ _ hY
    refine pySetAux_eq_nil Y seen fun a ha => ?_
    rcases hY a ha with h | h
    · exact absurd h (List.not_mem_nil a)
    · exact h
  | cons s S ih =>
    intro Y seen hnd hseen hY
    rw [List.cons_append, pySetAux, if_neg (hseen s (by simp))]
    congr 1
    refine ih Y (s :: seen) (List.nodup_cons.mp hnd).2 ?_ ?_
    · intro a ha
      simp only [List.mem_cons, not_or]
      exact ⟨fun h => (List.nodup_cons.mp hnd).1 (h ▸ ha),
        hseen a (by simp [ha])⟩
    · intro b hb
      rcases hY b hb with h | h
      · rcases List.mem_cons.mp h with h | h
        · exact Or.inr (by simp [h])
        · exact Or.inl h
      · exact Or.inr (by simp [h])

theorem pySet_append_eq_self (S Y : List String) (hnd : S.Nodup)
    (hY : ∀ b ∈ Y, b ∈ S) : pySet (S ++ Y) = S :=
  pySetAux_append_eq_self S Y [] hnd (by simp)
    (fun b hb => Or.inl (hY b hb))

theorem sorted_sortCF (l : List String) : List.Sorted casefoldLe (sortCF l) :=
  List.sorted_insertionSort casefoldLe l

theorem sortCF_perm (l : List String) : (sortCF l).Perm l :=
  List.perm_insertionSort casefoldLe l

theorem mem_sortCF (a : String) (l : List String) : a ∈ sortCF l ↔ a ∈ l :=
  (sortCF_perm l).mem_iff

theorem nodup_sortCF (l : List String) (h : l.Nodup) : (sortCF l).Nodup :=
  (sortCF_perm l).symm.nodup h

theorem sortCF_eq_of_sorted (l : List String) (h : List.Sorted casefoldLe l) :
    sortCF l = l :=
  List.Sorted.insertionSort_eq h

/-! ### Lemmas about the write-then-strip-read round trip -/

theorem trimLead_trimLead (l : List Char) : trimLead (trimLead l) = trimLead l := by
  induction l with
  | nil => rfl
  | cons c t ih =>
    by_cases hc : Char.isWhitespace c
    · simp only [trimLead, List.dropWhile_cons, if_pos hc] at ih ⊢
      exact ih
    · simp only [trimLead, List.dropWhile_cons, if_neg hc]

theorem mem_trimLead (a : Char) (l : List Char) (h : a ∈ trimLead l) : a ∈ l :=
  (List.dropWhile_sublist _).subset h

theorem mem_stripChars (a : Char) (l : List Char) (h : a ∈ stripChars l) :
    a ∈ l := by
  rw [stripChars, List.mem_reverse] at h
  have h2 := mem_trimLead a _ h
  rw [List.mem_reverse] at h2
  exact mem_trimLead a l h2

theorem stripChars_idem (l : List Char) :
    stripChars (stripChars l) = stripChars l := by
  have h1 : trimLead (stripChars l) = stripChars l := by
    obtain ⟨t, ht⟩ := List.dropWhile_suffix (l := (trimLead l).reverse)
      Char.isWhitespace
    have hsplit : stripChars l ++ t.reverse = trimLead l := by
      show (trimLead (trimLead l).reverse).reverse ++ t.reverse = trimLead l
      have h := congrArg List.reverse ht
      rw [List.reverse_append, List.reverse_reverse] at h
      exact h
    cases hB : stripChars l with
    | nil => rfl
    | cons c bs =>
      have hAeq : trimLead l = c :: (bs ++ t.reverse) := by
        rw [← hsplit, hB]
        simp
      have hc : ¬ (Char.isWhitespace c = true) := by
        intro hcw
        have hA := trimLead_trimLead l
        rw [hAeq] at hA
        simp only [trimLead, List.dropWhile_cons, if_pos hcw] at hA
        have hlen := congrArg List.length hA
        have hle := (List.dropWhile_sublist (l := bs ++ t.reverse)
          Char.isWhitespace).length_le
        simp only [List.length_cons] at hlen
        omega
      simp only [trimLead, List.dropWhile_cons, if_neg hc]
  have h3 : (stripChars l).reverse = trimLead (trimLead l).reverse := by
    show ((trimLead (trimLead l).reverse).reverse).reverse = _
    rw [List.reverse_reverse]
  calc stripChars (stripChars l)
      = (trimLead (trimLead (stripChars l)).reverse).reverse := rfl
    _ = (trimLead (stripChars l).reverse).reverse := by rw [h1]
    _ = (trimLead (trimLead (trimLead l).reverse)).reverse := by rw [h3]
    _ = (trimLead (trimLead l).reverse).reverse := by rw [trimLead_trimLead]
    _ = stripChars l := rfl

theorem splitLinesAux_no_nl :
    ∀ (l cur : List Char), '\n' ∉ cur →
      ∀ seg ∈ splitLinesAux cur l, '\n' ∉ seg := by
  intro l
  induction l with
  | nil =>
    intro cur hcur seg hseg
    simp only [splitLinesAux] at hseg
    by_cases hc : cur.isEmpty
    · rw [if_pos hc] at hseg
      exact absurd hseg (List.not_mem_nil seg)
    · rw [if_neg hc] at hseg
      rw [List.mem_singleton.mp hseg]
      simpa using hcur
  | cons c rest ih =>
    intro cur hcur seg hseg
    simp only [splitLinesAux] at hseg
    by_cases hc : c = '\n'
    · rw [if_pos hc] at hseg
      rcases List.mem_cons.mp hseg with rfl | hm
      · simpa using hcur
      · exact ih [] (List.not_mem_nil _) seg hm
    · rw [if_neg hc] at hseg
      refine ih (c :: cur) ?_ seg hseg
      intro hmem
      rcases List.mem_cons.mp hmem with hm | hm
      · exact hc hm.symm
      · exact hcur hm

theorem splitLinesAux_append (l : List Char) :
    ∀ (cs cur : List Char), '\n' ∉ cs →
      splitLinesAux cur (cs ++ '\n' :: l) =
        (cur.reverse ++ cs) :: splitLinesAux [] l := by
  intro cs
  induction cs with
  | nil =>
    intro cur h
    simp [splitLinesAux]
  | cons c cs ih =>
    intro cur h
    have hc : ¬ (c = '\n') := fun hcc => h (by simp [hcc])
    simp only [List.cons_append, splitLinesAux, if_neg hc, List.append_eq]
    rw [ih (c :: cur) (fun hm => h (by simp [hm]))]
    simp

theorem intercalate_go_data :
    ∀ (as : List String) (acc : String),
      (String.intercalate.go acc "\n" as).data =
        acc.data ++ (as.map (fun a => '\n' :: a.data)).flatten := by
  intro as
  induction as with
  | nil =>
    intro acc
    rw [String.intercalate.go]
    simp
  | cons a as ih =>
    intro acc
    rw [String.intercalate.go, ih]
    simp [String.data_append, (show (("\n" : String)).data = ['\n'] from rfl)]

theorem flatten_nl_shift :
    ∀ (as : List String),
      (as.map (fun x => '\n' :: x.data)).flatten ++ ['\n'] =
        '\n' :: (as.map (fun e => e.data ++ ['\n'])).flatten := by
  intro as
  induction as with
  | nil => rfl
  | cons a as ih =>
    simp only [List.map_cons, List.flatten_cons, List.cons_append,
      List.append_assoc, ih, List.nil_append]

theorem writeContent_data (S : List String) (hne : S ≠ []) :
    (writeContent S).data = (S.map (fun e => e.data ++ ['\n'])).flatten := by
  cases S with
  | nil => exact absurd rfl hne
  | cons a as =>
    show (String.intercalate "\n" (a :: as) ++ "\n").data = _
    rw [String.data_append, String.intercalate, intercalate_go_data,
      (show (("\n" : String)).data = ['\n'] from rfl), List.append_assoc,
      flatten_nl_shift]
    simp

theorem splitLines_flat :
    ∀ (S : List String), (∀ e ∈ S, '\n' ∉ e.data) →
      splitLinesAux [] ((S.map (fun e => e.data ++ ['\n'])).flatten) =
        S.map String.data := by
  intro S
  induction S with
  | nil => intro _; rfl
  | cons e S ih =>
    intro h
    simp only [List.map_cons, List.flatten_cons, List.append_assoc,
      List.singleton_append]
    rw [splitLinesAux_append _ e.data [] (h e (by simp))]
    rw [ih (fun x hx => h x (by simp [hx]))]
    simp

theorem readPrior_writeContent (S : List String)
    (h : ∀ e ∈ S, '\n' ∉ e.data ∧ stripChars e.data = e.data) (hne : S ≠ []) :
    readPrior (writeContent S) = S := by
  rw [readPrior, writeContent_data S hne,
    splitLines_flat S (fun e he => (h e he).1), List.map_map]
  have hcongr : ∀ e ∈ S,
      ((fun cs => String.mk (stripChars cs)) ∘ String.data) e = id e := by
    intro e he
    show String.mk (stripChars e.data) = e
    rw [(h e he).2]
  rw [List.map_congr_left hcongr, List.map_id]

theorem readPrior_clean (s : String) :
    ∀ e ∈ readPrior s, '\n' ∉ e.data ∧ stripChars e.data = e.data := by
  intro e he
  simp only [readPrior, List.mem_map] at he
  obtain ⟨cs, hcs, rfl⟩ := he
  have hnl : '\n' ∉ cs :=
    splitLinesAux_no_nl s.data [] (List.not_mem_nil _) cs hcs
  constructor
  · show '\n' ∉ stripChars cs
    exact fun hm => hnl (mem_stripChars _ _ hm)
  · show stripChars (stripChars cs) = stripChars cs
    exact stripChars_idem cs

/-- When every page in a list has a next-link, `filterMap Page.next` keeps
one URL per page. -/
theorem length_filterMap_next :
    ∀ (l : List Page), (∀ p ∈ l, (Page.next p).isSome) →
      (l.filterMap Page.next).length = l.length := by
  intro l
  induction l with
  | nil => intro _; rfl
  | cons p t ih =>
    intro h
    obtain ⟨v, hv⟩ := Option.isSome_iff_exists.mp (h p (by simp))
    rw [List.filterMap_cons, hv]
    simp [ih fun q hq => h q (by simp [hq])]

/-! ### The claims -/

/-- C2, counterexample: a transport-level fetch failure is NOT handled like
a non-200 response.  With the very first `urlopen` raising a transport
error, the crawl ends at once with the exception propagating (`raised`):
no retry, no backoff sleep, exactly one fetch attempt was made. -/
theorem claim_C2_counterexample :
    (extract_letter_entries "A" [FetchResult.err]).2 = CrawlOutcome.raised
    ∧ (extract_letter_entries "A" [FetchResult.err]).1.sleeps = ([] : List Nat)
    ∧ (extract_letter_entries "A" [FetchResult.err]).1.fetched.length = 1 :=
  ⟨rfl, rfl, rfl⟩

/-- C2, amended: a transport-level fetch failure (an error raised by
`urlopen` itself) is not retried at all: `extract_letter_entries` has no
`try/except`, so the exception immediately propagates out of the crawl,
with no backoff sleep and no further fetch; only non-200 responses take the
retry path. -/
theorem claim_C2_amended (s : CrawlState) (u : String) (rest : List FetchResult)
    (h : s.url = some u) :
    crawlLoop (.err :: rest) s =
      ({ s with fetched := s.fetched ++ [u] }, .raised) :=
  crawlLoop_err s u rest h

/-- C2, witness for the amended theorem at a concrete state. -/
theorem claim_C2_amended_witness :
    crawlLoop [FetchResult.err]
        { url := some "u", attempt := 0, pages := [], fetched := [], sleeps := [] } =
      ({ url := some "u", attempt := 0, pages := [], fetched := ["u"], sleeps := [] },
        CrawlOutcome.raised) :=
  claim_C2_amended _ "u" [] rfl

/-- C3: a letter whose every fetch of one page returns a non-200 status is
abandoned (`fatal`) after exactly `MAX_ATTEMPTS + 1 = 11` fetch attempts,
all of the same failing URL; and the budget is per page: after a successful
first page, the second page again gets exactly 11 attempts before the
letter is abandoned. -/
theorem claim_C3 (letter : String) (c : Nat) (p : Page) (es : List String)
    (u2 : String) (hc : c ≠ 200) :
    MAX_ATTEMPTS + 1 = 11
    ∧ (extract_letter_entries letter
        (List.replicate (MAX_ATTEMPTS + 1) (.ok c p))).2 = .fatal
    ∧ (extract_letter_entries letter
        (List.replicate (MAX_ATTEMPTS + 1) (.ok c p))).1.fetched =
        List.replicate (MAX_ATTEMPTS + 1) (API_format letter)
    ∧ (extract_letter_entries letter
        (.ok 200 ⟨es, some u2⟩ :: List.replicate (MAX_ATTEMPTS + 1) (.ok c p))).2 = .fatal
    ∧ (extract_letter_entries letter
        (.ok 200 ⟨es, some u2⟩ :: List.replicate (MAX_ATTEMPTS + 1) (.ok c p))).1.fetched =
        API_format letter :: List.replicate (MAX_ATTEMPTS + 1) u2 := by
  have key : ∀ (s : CrawlState) (u : String), s.url = some u → s.attempt = 0 →
      crawlLoop (List.replicate (MAX_ATTEMPTS + 1) (.ok c p)) s =
        ({ s with
            attempt := MAX_ATTEMPTS + 1
            fetched := s.fetched ++ List.replicate (MAX_ATTEMPTS + 1) u
            sleeps := s.sleeps ++
              (List.range' (s.attempt + 1) MAX_ATTEMPTS).map (fun i => DELAY * i) },
          .fatal) := by
    intro s u h h0
    rw [← List.append_nil (List.replicate (MAX_ATTEMPTS + 1) (FetchResult.ok c p)),
      crawlLoop_failStreak_fatal c p hc (MAX_ATTEMPTS + 1) s u [] h (by omega) (by omega)]
    simp
  refine ⟨rfl, ?_, ?_, ?_, ?_⟩
  · rw [extract_letter_entries, key _ (API_format letter) rfl rfl]
  · rw [extract_letter_entries, key _ (API_format letter) rfl rfl]; simp
  · rw [extract_letter_entries,
      crawlLoop_200 _ (API_format letter) ⟨es, some u2⟩ _ rfl,
      key _ u2 rfl rfl]
  · rw [extract_letter_entries,
      crawlLoop_200 _ (API_format letter) ⟨es, some u2⟩ _ rfl,
      key _ u2 rfl rfl]
    simp

/-- C3, witness at a concrete failing page. -/
theorem claim_C3_witness :
    MAX_ATTEMPTS + 1 = 11
    ∧ (extract_letter_entries "A"
        (List.replicate (MAX_ATTEMPTS + 1) (.ok 404 ⟨["w"], none⟩))).2 = .fatal
    ∧ (extract_letter_entries "A"
        (List.replicate (MAX_ATTEMPTS + 1) (.ok 404 ⟨["w"], none⟩))).1.fetched =
        List.replicate (MAX_ATTEMPTS + 1) (API_format "A")
    ∧ (extract_letter_entries "A"
        (.ok 200 ⟨["e"], some "u2"⟩ ::
          List.replicate (MAX_ATTEMPTS + 1) (.ok 404 ⟨["w"], none⟩))).2 = .fatal
    ∧ (extract_letter_entries "A"
        (.ok 200 ⟨["e"], some "u2"⟩ ::
          List.replicate (MAX_ATTEMPTS + 1) (.ok 404 ⟨["w"], none⟩))).1.fetched =
        API_format "A" :: List.replicate (MAX_ATTEMPTS + 1) "u2" :=
  claim_C3 "A" 404 ⟨["w"], none⟩ ["e"] "u2" (by decide)

/-- C4: after the n-th consecutive failed fetch of a page (n ≤ MAX_ATTEMPTS,
starting from a fresh attempt counter), the crawler has slept
`DELAY * 1, ..., DELAY * n` time units (linear backoff, `DELAY = 10`) and is
about to retry with its `url` field unchanged (pagination not advanced, no
page yielded); any 200 response — from ANY attempt count — resets the
attempt counter to 0; and consequently a later flaky page starts its backoff
from scratch: whatever the attempt count before a 200, the next page's
first failure sleeps `DELAY * 1`. -/
theorem claim_C4 (s s2 : CrawlState) (u u2 v : String) (c : Nat) (p p2 : Page)
    (rest : List FetchResult) (n : Nat) (h : s.url = some u) (hc : c ≠ 200)
    (h0 : s.attempt = 0) (hn : n ≤ MAX_ATTEMPTS) (h2 : s2.url = some u2)
    (hv : p2.next = some v) :
    DELAY = 10
    ∧ crawlLoop (List.replicate n (.ok c p) ++ rest) s =
        crawlLoop rest
          { s with
            attempt := n
            fetched := s.fetched ++ List.replicate n u
            sleeps := s.sleeps ++ (List.range' 1 n).map (fun i => DELAY * i) }
    ∧ crawlLoop (.ok 200 p2 :: rest) s2 =
        crawlLoop rest
          { url := p2.next, attempt := 0
            pages := s2.pages ++ [p2.entries]
            fetched := s2.fetched ++ [u2]
            sleeps := s2.sleeps }
    ∧ crawlLoop (.ok 200 p2 :: .ok c p :: rest) s2 =
        crawlLoop rest
          { url := some v, attempt := 1
            pages := s2.pages ++ [p2.entries]
            fetched := s2.fetched ++ [u2, v]
            sleeps := s2.sleeps ++ [DELAY * 1] } := by
  refine ⟨rfl, ?_, crawlLoop_200 s2 u2 p2 rest h2, ?_⟩
  · have := crawlLoop_failStreak c p hc n s u rest h (by omega)
    rw [this, h0]
    simp
  · rw [crawlLoop_200 s2 u2 p2 _ h2,
      crawlLoop_fail_cont _ v c p rest (by simpa using hv) hc
        (by dsimp only; decide)]
    simp [hv]

/-- C4, witness: three consecutive 404s from a fresh state sleep 10, 20, 30
and leave the URL unchanged; a 200 at attempt count 7 resets the counter to
0; and the next page's first failure after that 200 sleeps `10 * 1`. -/
theorem claim_C4_witness :
    DELAY = 10
    ∧ crawlLoop (List.replicate 3 (.ok 404 ⟨["w"], none⟩) ++ [])
        { url := some "u", attempt := 0, pages := [], fetched := [], sleeps := [] } =
        crawlLoop []
          { url := some "u", attempt := 3, pages := []
            fetched := ["u", "u", "u"], sleeps := [10, 20, 30] }
    ∧ crawlLoop [.ok 200 ⟨["w2"], some "u3"⟩]
        { url := some "u2", attempt := 7, pages := [["p0"]]
          fetched := ["u0"], sleeps := [10, 20] } =
        crawlLoop []
          { url := some "u3", attempt := 0, pages := [["p0"], ["w2"]]
            fetched := ["u0", "u2"], sleeps := [10, 20] }
    ∧ crawlLoop [.ok 200 ⟨["w2"], some "u3"⟩, .ok 404 ⟨["w"], none⟩]
        { url := some "u2", attempt := 7, pages := [["p0"]]
          fetched := ["u0"], sleeps := [10, 20] } =
        crawlLoop []
          { url := some "u3", attempt := 1, pages := [["p0"], ["w2"]]
            fetched := ["u0", "u2", "u3"], sleeps := [10, 20, 10] } :=
  claim_C4 ⟨some "u", 0, [], [], []⟩
    ⟨some "u2", 7, [["p0"]], ["u0"], [10, 20]⟩ "u" "u2" "u3" 404
    ⟨["w"], none⟩ ⟨["w2"], some "u3"⟩ [] 3 rfl (by decide) rfl (by decide)
    rfl rfl

/-- C5, counterexample: at the spec's own example (prior file
`{"apple","zeta"}`, fresh crawl `["banana","apple"]`), the Replace policy
does not produce the case-insensitively sorted list `["apple","banana"]` of
the fresh entries — the code (`all_data = entries`) returns the fresh
entries in raw crawl order. -/
theorem claim_C5_counterexample :
    mergeEntries (some ["apple", "zeta"]) ["banana", "apple"] true =
      ["banana", "apple"]
    ∧ (["banana", "apple"] : List String) ≠ ["apple", "banana"]
    ∧ mergeEntries (some ["apple", "zeta"]) ["banana", "apple"] false =
      ["apple", "banana", "zeta"] :=
  ⟨rfl, by decide, by decide⟩

/-- C5, amended: Replace returns exactly the fresh entries as crawled
(order and duplicates preserved, prior entries dropped); Union with a prior
file returns a case-insensitively sorted, duplicate-free list whose
elements are exactly the union of prior and fresh entries (prior entries
not re-observed are retained). -/
theorem claim_C5_amended (P F : List String) :
    mergeEntries (some P) F true = F
    ∧ List.Sorted casefoldLe (mergeEntries (some P) F false)
    ∧ (mergeEntries (some P) F false).Nodup
    ∧ (∀ a, a ∈ mergeEntries (some P) F false ↔ a ∈ P ∨ a ∈ F) := by
  have he : mergeEntries (some P) F false = sortCF (pySet (P ++ F)) := rfl
  refine ⟨rfl, ?_, ?_, ?_⟩
  · rw [he]; exact sorted_sortCF _
  · rw [he]; exact nodup_sortCF _ (nodup_pySet _)
  · intro a; rw [he, mem_sortCF, mem_pySet, List.mem_append]

/-- At the entry-list level the Union merge is idempotent: re-merging the
same fresh set into a first merge's output list changes nothing.  (This
does NOT transfer to the program's file level, where the prior list is read
back through `strip` — see the C6 counterexample.) -/
theorem mergeEntries_union_idem (X Y : List String) :
    mergeEntries (some (mergeEntries (some X) Y false)) Y false =
      mergeEntries (some X) Y false := by
  have he : ∀ old, mergeEntries (some old) Y false = sortCF (pySet (old ++ Y)) :=
    fun _ => rfl
  rw [he, he]
  rw [pySet_append_eq_self (sortCF (pySet (X ++ Y))) Y
    (nodup_sortCF _ (nodup_pySet _))
    (fun b hb => by
      rw [mem_sortCF, mem_pySet]
      exact List.mem_append.mpr (Or.inr hb))]
  exact sortCF_eq_of_sorted _ (sorted_sortCF _)

/-- C6, counterexample: the Union merge is NOT idempotent at the file
level, because the prior file is read back through `line.strip()`
(src/main.py line 92).  With prior file `"x\n"` and fresh entries
`["b "]` (trailing space), the first merge writes `"b \nx\n"`; the second
merge reads that back as `["b", "x"]` (the edge whitespace stripped), so
`"b "` is no longer recognized as present and the file grows to
`"b\nb \nx\n"`. -/
theorem claim_C6_counterexample :
    mergeFile (some "x\n") ["b "] false = "b \nx\n"
    ∧ mergeFile (some (mergeFile (some "x\n") ["b "] false)) ["b "] false =
        "b\nb \nx\n"
    ∧ ("b\nb \nx\n" : String) ≠ "b \nx\n" :=
  ⟨rfl, rfl, by decide⟩

/-- C6, amended: the Union merge is idempotent for fresh entries that
survive the write-then-strip-read round trip — entries containing no
newline and no leading or trailing whitespace.  For such fresh sets,
merging the same set into the file a second time leaves the file content
unchanged: `merge(merge(X, Y), Y) = merge(X, Y)` for every prior file
content `X`. -/
theorem claim_C6 (X : String) (Y : List String)
    (hY : ∀ e ∈ Y, '\n' ∉ e.data ∧ stripChars e.data = e.data) :
    mergeFile (some (mergeFile (some X) Y false)) Y false =
      mergeFile (some X) Y false := by
  have h1 : mergeFile (some X) Y false =
      writeContent (sortCF (pySet (readPrior X ++ Y))) := rfl
  have hSnodup : (sortCF (pySet (readPrior X ++ Y))).Nodup :=
    nodup_sortCF _ (nodup_pySet _)
  have hSmem : ∀ a, a ∈ sortCF (pySet (readPrior X ++ Y)) ↔
      a ∈ readPrior X ++ Y := fun a => by rw [mem_sortCF, mem_pySet]
  by_cases hS : sortCF (pySet (readPrior X ++ Y)) = []
  · have hPY : readPrior X ++ Y = [] := by
      rcases hpy : readPrior X ++ Y with _ | ⟨a, t⟩
      · rfl
      · have ha : a ∈ sortCF (pySet (readPrior X ++ Y)) :=
          (hSmem a).mpr (by rw [hpy]; simp)
        rw [hS] at ha
        exact absurd ha (List.not_mem_nil a)
    have hYnil : Y = [] := (List.append_eq_nil.mp hPY).2
    subst hYnil
    rw [h1, hS]
    rfl
  · have hclean : ∀ e ∈ sortCF (pySet (readPrior X ++ Y)),
        '\n' ∉ e.data ∧ stripChars e.data = e.data := by
      intro e he
      rcases List.mem_append.mp ((hSmem e).mp he) with hm | hm
      · exact readPrior_clean X e hm
      · exact hY e hm
    have hrt := readPrior_writeContent _ hclean hS
    have h2 : mergeFile
        (some (writeContent (sortCF (pySet (readPrior X ++ Y))))) Y false =
        writeContent (sortCF (pySet
          (readPrior (writeContent (sortCF (pySet (readPrior X ++ Y)))) ++ Y))) :=
      rfl
    rw [h1, h2, hrt,
      pySet_append_eq_self _ Y hSnodup
        (fun b hb => (hSmem b).mpr (List.mem_append.mpr (Or.inr hb))),
      sortCF_eq_of_sorted _ (sorted_sortCF _)]

/-- C6, witness: a clean fresh entry at a concrete prior file. -/
theorem claim_C6_witness :
    mergeFile (some (mergeFile (some "x\n") ["b"] false)) ["b"] false =
      mergeFile (some "x\n") ["b"] false :=
  claim_C6 "x\n" ["b"] (by decide)

/-- C7: when no prior output file exists (`FileNotFoundError`), the merge
step does not fail and returns the fresh entries alone, under either merge
policy. -/
theorem claim_C7 (F : List String) (remove_dead : Bool) :
    mergeEntries none F remove_dead = F := by
  cases remove_dead <;> rfl

/-- C8: for a pagination chain of `N` pages (every page before the last has
a next-link, the last has none) answered with status 200, the crawl
terminates normally after fetching exactly `N` URLs — the letter's index
URL followed by each page's next-link in pagination order (page N+1's URL
is taken from page N's extraction result), with every page's entries
accumulated in order and no sleeps. -/
theorem claim_C8 (letter : String) (ps : List Page) (hne : ps ≠ [])
    (hmid : ∀ p ∈ ps.dropLast, (Page.next p).isSome)
    (hlast : (ps.getLast hne).next = none) :
    extract_letter_entries letter (ps.map (fun p => FetchResult.ok 200 p)) =
      ({ url := none, attempt := 0
         pages := ps.map Page.entries
         fetched := API_format letter :: ps.dropLast.filterMap Page.next
         sleeps := [] }, .done)
    ∧ (API_format letter :: ps.dropLast.filterMap Page.next).length = ps.length := by
  constructor
  · rw [extract_letter_entries,
      crawlLoop_successChain ps _ (API_format letter) hne rfl hmid hlast]
    simp
  · rw [List.length_cons, length_filterMap_next ps.dropLast hmid,
      List.length_dropLast]
    have : ps.length ≠ 0 := fun h => hne (List.eq_nil_of_length_eq_zero h)
    omega

/-- C8, witness: a two-page chain stops after exactly two fetches, the
second fetch using the first page's next-link. -/
theorem claim_C8_witness :
    extract_letter_entries "A"
        ([⟨["w1"], some "u2"⟩, ⟨["w2"], none⟩].map
          (fun p => FetchResult.ok 200 p)) =
      ({ url := none, attempt := 0
         pages := [["w1"], ["w2"]]
         fetched := [API_format "A", "u2"]
         sleeps := [] }, .done)
    ∧ (API_format "A" ::
        ([⟨["w1"], some "u2"⟩, ⟨["w2"], none⟩] : List Page).dropLast.filterMap
          Page.next).length = 2 :=
  claim_C8 "A" [⟨["w1"], some "u2"⟩, ⟨["w2"], none⟩] (by decide)
    (by decide) (by decide)

/-- C9: when a letter's retry ceiling is exceeded (outcome `fatal`), the
entries accumulated before the failure are still merged and an output file
is written for that letter (`list(...)` drains the generator up to the
`break`, then the merge-and-write runs); and the failure does not affect
sibling letters: over any set of letters not containing the failing one,
the per-letter results are identical no matter what the failing letter's
fetch environment and prior file are. -/
theorem claim_C9 (letter : String) (env : List FetchResult)
    (old? : Option (List String)) (rd : Bool) (sibs : List String)
    (envs₁ envs₂ : String → List FetchResult)
    (olds₁ olds₂ : String → Option (List String)) (l : String) :
    ((extract_letter_entries letter env).2 = .fatal →
      download_letter_entries letter env old? rd =
        .ok (writeContent (mergeEntries old?
          (extract_letter_entries letter env).1.pages.flatten rd)))
    ∧ ((∀ x, x ≠ l → envs₁ x = envs₂ x ∧ olds₁ x = olds₂ x) → l ∉ sibs →
        download_entries sibs envs₁ olds₁ rd =
          download_entries sibs envs₂ olds₂ rd) := by
  constructor
  · intro hf
    rw [download_letter_entries]
    rw [hf]
  · intro hagree hnot
    rw [download_entries, download_entries]
    refine List.map_congr_left fun a ha => ?_
    have hal : a ≠ l := fun h => hnot (h ▸ ha)
    rw [(hagree a hal).1, (hagree a hal).2]

/-- C9, witness: a letter failing all 11 attempts still gets its file
written (here: an empty crawl, no prior file, so the file is a single
newline); and the results for sibling letters A and B are unchanged when
letter C's fetch environment is replaced by one that raises. -/
theorem claim_C9_witness :
    download_letter_entries "C"
        (List.replicate 11 (.ok 404 ⟨["w"], none⟩)) none false = .ok "\n"
    ∧ download_entries ["A", "B"] (fun _ => []) (fun _ => none) false =
        download_entries ["A", "B"]
          (fun x => if x = "C" then [FetchResult.err] else [])
          (fun _ => none) false :=
  ⟨(claim_C9 "C" (List.replicate 11 (.ok 404 ⟨["w"], none⟩)) none false []
      (fun _ => []) (fun _ => []) (fun _ => none) (fun _ => none) "C").1
      (by decide),
   (claim_C9 "C" [] none false ["A", "B"]
      (fun _ => []) (fun x => if x = "C" then [FetchResult.err] else [])
      (fun _ => none) (fun _ => none) "C").2
      (fun x hx => ⟨(if_neg hx).symm, rfl⟩) (by decide)⟩

/-- C10: whenever the entry list to be written is empty, the written file
content is exactly one newline character (a single blank line): the write
is `"\n".join(all_data) + "\n"`, and `join` of nothing is the empty
string. -/
theorem claim_C10 (letter : String) (env : List FetchResult)
    (old? : Option (List String)) (rd : Bool)
    (hout : (extract_letter_entries letter env).2 ≠ .raised)
    (hempty : mergeEntries old?
      (extract_letter_entries letter env).1.pages.flatten rd = []) :
    download_letter_entries letter env old? rd = .ok "\n"
    ∧ writeContent [] = "\n" := by
  constructor
  · rw [download_letter_entries]
    cases h2 : (extract_letter_entries letter env).2 with
    | raised => exact absurd h2 hout
    | done => rw [hempty]; rfl
    | fatal => rw [hempty]; rfl
    | pending => rw [hempty]; rfl
  · rfl

/-- C10, witness: an empty fresh crawl (one 200 page with no entries and no
next-link) under Replace policy with no prior file writes the file
`"\n"`. -/
theorem claim_C10_witness :
    download_letter_entries "A" [.ok 200 ⟨[], none⟩] none true = .ok "\n"
    ∧ writeContent [] = "\n" :=
  claim_C10 "A" [.ok 200 ⟨[], none⟩] none true (by decide) rfl

/-- C1, counterexample: a letter whose pipeline completes normally (one 200
page, entries `["banana","Apple"]`, no next-link) under Replace policy
writes `"banana\nApple\n"` — not a case-insensitively sorted list (the
claim demands sortedness under both policies and regardless of a prior
file). -/
theorem claim_C1_counterexample :
    (extract_letter_entries "A" [.ok 200 ⟨["banana", "Apple"], none⟩]).2 = .done
    ∧ download_letter_entries "A" [.ok 200 ⟨["banana", "Apple"], none⟩] none true =
        .ok (writeContent ["banana", "Apple"])
    ∧ ¬ List.Sorted casefoldLe ["banana", "Apple"]
    ∧ writeContent ["banana", "Apple"] ≠
        writeContent (sortCF (pySet ["banana", "Apple"])) :=
  ⟨rfl, rfl, by decide, by decide⟩

/-- C1, amended: only under the Union policy with an existing prior file is
the merged entry list case-insensitively sorted and duplicate-free; under
the Replace policy, or when no prior file exists, the written list is the
freshly crawled entries verbatim (crawl order, duplicates kept).  In every
case the file is written as the entries joined by newlines with a trailing
newline, so its last character is a newline. -/
theorem claim_C1_amended (old? : Option (List String))
    (old fresh l : List String) (rd : Bool) :
    List.Sorted casefoldLe (mergeEntries (some old) fresh false)
    ∧ (mergeEntries (some old) fresh false).Nodup
    ∧ mergeEntries old? fresh true = fresh
    ∧ mergeEntries none fresh rd = fresh
    ∧ writeContent l = String.intercalate "\n" l ++ "\n"
    ∧ (writeContent l).data.getLast? = some '\n' := by
  have he : mergeEntries (some old) fresh false =
      sortCF (pySet (old ++ fresh)) := rfl
  refine ⟨?_, ?_, ?_, ?_, rfl, ?_⟩
  · rw [he]; exact sorted_sortCF _
  · rw [he]; exact nodup_sortCF _ (nodup_pySet _)
  · cases old? <;> rfl
  · cases rd <;> rfl
  · rw [writeContent, String.data_append]
    exact List.getLast?_concat _

end UD
